import Mathlib

/-!
Verification development for `src/start_stop_analysis.py`, the codon-distance
aggregation engine of the start/stop codon coverage analysis tool.

The embedding below is a shallow model of the Python source:

* `StartStopData`, `add_start_codon`, `add_stop_codon` model the aggregator
  class (source lines 65-101): Python dicts keyed by the string
  `chr|pos|strand` become association lists (insertion-ordered, keys unique by
  construction), numpy observation arrays become `List Obs`, and the private
  distance sets become duplicate-free `List Int`.
* `get_start_codon_dist_count` / `get_stop_codon_dist_count` model the
  reduction methods (lines 103-155).  The pandas data frame becomes
  `CoverageMatrix`; since every per-read-length distance observed at a
  passing site is also a member of the class-wide distance set in any state
  reachable through the accumulation operations (`WFData` below), the pandas
  `append`/`fillna(0)` pipeline amounts to: rows = sorted read lengths,
  columns = sorted distance set, cell = occurrence count.
* `lineStep` / `runSteps` / `parse_start_stop_codon` model the parsing loop
  (lines 536-570) including its evaluation order: Python `and` short-circuit,
  index accesses that can raise `IndexError`, `float`/`int` conversions that
  can raise `ValueError`, and the fact that the loop-local variable `fdist`
  is only conditionally assigned (re-using a stale value from a previous
  iteration, or raising `NameError` when it was never assigned).
* Numeric parsing: Python `int(...)` is modelled by `parsePyInt`
  (optional surrounding whitespace, optional sign, decimal digits) and
  Python `float(...)` by `parsePyFloat` over exact decimals `DecQ` (decimal
  mantissa with optional fraction and optional exponent; the special forms
  `inf`/`nan` are not modelled, and exact decimal arithmetic stands in for
  binary floating point — all quality values compared here are small decimals
  for which the comparisons agree).
* The feature regex `^.*\t(start|stop)\t.*$` (case-insensitive, line 545)
  matches a line exactly when some tab-delimited field other than the first
  and the last equals one of the two tags up to case, provided the tags
  contain no tab and no regex metacharacter (true of the defaults
  `start_codon`/`stop_codon`); `matchesPattern` is that characterisation.
-/

deriving instance DecidableEq for Except

namespace StartStop

/-- One accumulated observation: the row `[codon position, read end position,
signed distance, read length]` appended by `add_start_codon`/`add_stop_codon`
(source lines 83, 97). -/
structure Obs where
  codonpos : Int
  readpos : Int
  dist : Int
  readlen : Int
deriving DecidableEq, Repr

/-- The aggregator state of class `StartStopData` (source lines 65-73):
`startcodons`/`stopcodons` dictionaries as association lists from site key to
observation list, and the private distance sets as duplicate-free lists. -/
structure StartStopData where
  startcodons : List (String × List Obs)
  stopcodons : List (String × List Obs)
  start_dist : List Int
  stop_dist : List Int
deriving DecidableEq, Repr

/-- `StartStopData.__init__` (source lines 67-73). -/
def emptyData : StartStopData := ⟨[], [], [], []⟩

/-- `'|'.join([chr,str(pos),strand])` (source lines 80, 94). -/
def siteKey (chr : String) (pos : Int) (strand : String) : String :=
  chr ++ "|" ++ toString pos ++ "|" ++ strand

/-- Append an observation to the entry of `k`, creating the entry when the key
is absent — the `try/except KeyError` dictionary update of lines 82-85. -/
def assocAppend (m : List (String × List Obs)) (k : String) (o : Obs) :
    List (String × List Obs) :=
  if m.any (fun p => p.1 = k) then
    m.map (fun p => if p.1 = k then (p.1, p.2 ++ [o]) else p)
  else m ++ [(k, [o])]

/-- Add a distance to a distance set, modelled as a duplicate-free list
(`set.add`, source lines 87, 101). -/
def insertDist (s : List Int) (d : Int) : List Int :=
  if d ∈ s then s else s ++ [d]

/-- The observation row built by `add_start_codon` (source lines 81-83):
`dist = startpos-readstart if strand =='-' else (readstart-startpos)`. -/
def mkStartObs (startpos : Int) (strand : String) (readstart readlen : Int) : Obs :=
  { codonpos := startpos, readpos := readstart,
    dist := if strand = "-" then startpos - readstart else readstart - startpos,
    readlen := readlen }

/-- The observation row built by `add_stop_codon` (source lines 94-95):
`dist = stoppos-readstop if strand =='-' else (readstop-stoppos)`. -/
def mkStopObs (stoppos : Int) (strand : String) (readstop readlen : Int) : Obs :=
  { codonpos := stoppos, readpos := readstop,
    dist := if strand = "-" then stoppos - readstop else readstop - stoppos,
    readlen := readlen }

/-- `StartStopData.add_start_codon` (source lines 75-87). -/
def add_start_codon (dat : StartStopData) (chr : String) (startpos : Int)
    (strand : String) (readstart readlen : Int) : StartStopData :=
  let o := mkStartObs startpos strand readstart readlen
  { dat with
    startcodons := assocAppend dat.startcodons (siteKey chr startpos strand) o,
    start_dist := insertDist dat.start_dist o.dist }

/-- `StartStopData.add_stop_codon` (source lines 89-101). -/
def add_stop_codon (dat : StartStopData) (chr : String) (stoppos : Int)
    (strand : String) (readstop readlen : Int) : StartStopData :=
  let o := mkStopObs stoppos strand readstop readlen
  { dat with
    stopcodons := assocAppend dat.stopcodons (siteKey chr stoppos strand) o,
    stop_dist := insertDist dat.stop_dist o.dist }

/-! ### Numeric field parsing (Python `int(...)` / `float(...)`) -/

/-- Numeric value of a decimal digit character. -/
def digitVal (c : Char) : Nat := c.toNat - '0'.toNat

/-- Value of a nonempty digit string. -/
def natOfDigits (cs : List Char) : Nat := cs.foldl (fun a c => a * 10 + digitVal c) 0

/-- Remove surrounding whitespace (Python `int`/`float` tolerate it). -/
def stripWs (cs : List Char) : List Char :=
  ((cs.dropWhile Char.isWhitespace).reverse.dropWhile Char.isWhitespace).reverse

/-- Consume an optional leading sign. -/
def splitSign : List Char → Int × List Char
  | '+' :: cs => (1, cs)
  | '-' :: cs => (-1, cs)
  | cs => (1, cs)

/-- Python `int(s)`: optional surrounding whitespace, optional sign, one or
more decimal digits; anything else raises `ValueError` (modelled as `none`). -/
def parsePyInt (cs0 : List Char) : Option Int :=
  let cs := stripWs cs0
  let p := splitSign cs
  if p.2 ≠ [] ∧ p.2.all (·.isDigit) then some (p.1 * (natOfDigits p.2 : Int)) else none

/-- An exact decimal number `num / 10 ^ scale`: the value of a Python decimal
float literal (the literals compared in this program are small decimals, for
which exact decimal comparison agrees with `float` comparison). -/
structure DecQ where
  num : Int
  scale : Nat
deriving DecidableEq, Repr

/-- Order on exact decimals by cross multiplication. -/
def DecQ.le (a b : DecQ) : Prop :=
  a.num * (10 : Int) ^ b.scale ≤ b.num * (10 : Int) ^ a.scale

instance (a b : DecQ) : Decidable (DecQ.le a b) := by
  unfold DecQ.le; infer_instance

/-- An integer as an exact decimal. -/
def DecQ.ofInt (n : Int) : DecQ := ⟨n, 0⟩

/-- Split into the leading digit run and the remainder. -/
def spanDigits (cs : List Char) : List Char × List Char :=
  (cs.takeWhile (·.isDigit), cs.dropWhile (·.isDigit))

/-- Mantissa of a Python float literal, `digits [. digits]` or `. digits`,
as (digits value, number of fraction digits, remainder). -/
def parseMantissa (cs : List Char) : Option (Nat × Nat × List Char) :=
  let d1 := (spanDigits cs).1
  let r1 := (spanDigits cs).2
  match r1 with
  | '.' :: r2 =>
      let d2 := (spanDigits r2).1
      let r3 := (spanDigits r2).2
      if d1 = [] ∧ d2 = [] then none
      else some (natOfDigits d1 * 10 ^ d2.length + natOfDigits d2, d2.length, r3)
  | _ => if d1 = [] then none else some (natOfDigits d1, 0, r1)

/-- Exponent tail after `e`/`E`: optional sign, one or more digits. -/
def parseExpTail (cs : List Char) : Option Int :=
  let p := splitSign cs
  if p.2 ≠ [] ∧ p.2.all (·.isDigit) then some (p.1 * (natOfDigits p.2 : Int)) else none

/-- Combine sign, mantissa and exponent into the exact decimal
`sgn * m * 10 ^ (ex - scale0)`. -/
def mkDecQ (sgn : Int) (m : Nat) (scale0 : Nat) (ex : Int) : DecQ :=
  let k : Int := (scale0 : Int) - ex
  if k ≤ 0 then ⟨sgn * (m : Int) * (10 : Int) ^ (-k).toNat, 0⟩
  else ⟨sgn * (m : Int), k.toNat⟩

/-- Python `float(s)` on decimal literals (optional surrounding whitespace,
optional sign, mantissa, optional exponent), as an exact decimal; the special
forms `inf`/`nan` are not modelled. -/
def parsePyFloat (cs0 : List Char) : Option DecQ :=
  let cs := stripWs cs0
  let p := splitSign cs
  match parseMantissa p.2 with
  | none => none
  | some mr =>
      match mr.2.2 with
      | [] => some (mkDecQ p.1 mr.1 mr.2.1 0)
      | 'e' :: es => (parseExpTail es).map (mkDecQ p.1 mr.1 mr.2.1)
      | 'E' :: es => (parseExpTail es).map (mkDecQ p.1 mr.1 mr.2.1)
      | _ => none

/-! ### Line splitting -/

/-- Python `str.split(c)` for a single-character separator: always returns at
least one (possibly empty) component; `n+1` components for `n` separators. -/
def splitOnChar (c : Char) : List Char → List (List Char)
  | [] => [[]]
  | x :: xs =>
      match splitOnChar c xs with
      | [] => [[]]
      | h :: t => if x = c then [] :: h :: t else (x :: h) :: t

/-- Python `str.strip(c)` for a single character. -/
def stripChar (c : Char) (cs : List Char) : List Char :=
  ((cs.dropWhile (· = c)).reverse.dropWhile (· = c)).reverse

/-- The tab-separated fields of a line after `f.strip('\n')`
(source lines 548, 550). -/
def fieldsOf (raw : String) : List String :=
  (splitOnChar '\t' (stripChar '\n' raw.data)).map List.asString

/-- Field access with the empty string as (unreachable) fallback for indices
already known to be in range. -/
def fld (raw : String) (i : Nat) : String := (fieldsOf raw).getD i ""

/-- `sum([int(s) for s in fdat[10].split(',')])` (source line 558):
the read length, `none` when any comma-separated component (including the
empty component produced by a trailing comma) is not an integer. -/
def sumBlockSizes : List (List Char) → Option Int
  | [] => some 0
  | p :: ps =>
      match parsePyInt p, sumBlockSizes ps with
      | some n, some m => some (n + m)
      | _, _ => none

/-- See `sumBlockSizes`: split the field on commas and sum the parsed
components. -/
def parseBlockSizes (s : String) : Option Int :=
  sumBlockSizes (splitOnChar ',' s.data)

/-! ### The parsing loop (`parse_start_stop_codon`, source lines 536-570) -/

/-- The configuration of `parse_start_stop_codon` (its keyword parameters,
source line 538). -/
structure Cfg where
  startcodon : String
  stopcodon : String
  minQ : DecQ
  minL : Int
deriving DecidableEq

/-- The default configuration
`startcodon='start_codon', stopcodon='stop_codon', minQ=10, minL=20`. -/
def defaultCfg : Cfg := ⟨"start_codon", "stop_codon", DecQ.ofInt 10, 20⟩

/-- The Python exceptions the loop body can raise and does not catch. -/
inductive PErr where
  | indexError
  | valueError
  | nameError
deriving DecidableEq, Repr

/-- Loop state: the seen-read set `readids`, the aggregator `startstop`, and
the last value assigned to the loop-local variable `fdist` (`none` while it
has never been assigned). -/
structure PState where
  readids : List String
  data : StartStopData
  lastFdist : Option Int
deriving DecidableEq, Repr

/-- `readids = set(); startstop = StartStopData()` (source lines 543-544). -/
def initState : PState := ⟨[], emptyData, none⟩

/-- ASCII lower-casing of a character. -/
def lowerChar (c : Char) : Char :=
  if 65 ≤ c.toNat ∧ c.toNat ≤ 90 then Char.ofNat (c.toNat + 32) else c

/-- ASCII case folding of a string, as Python 2 `re.IGNORECASE` applies it. -/
def lowerStr (s : String) : List Char := s.data.map lowerChar

/-- `re.search('^.*\t(start|stop)\t.*$', f, re.IGNORECASE)` (source lines
545, 549), characterised on the split fields: some field that is neither the
first nor the last equals one of the tags up to ASCII case. -/
def matchesPattern (cfg : Cfg) (fdat : List String) : Bool :=
  ((fdat.drop 1).dropLast).any
    (fun s => lowerStr s = lowerStr cfg.startcodon ∨ lowerStr s = lowerStr cfg.stopcodon)

/-- Source lines 558-568: compute the read length from the block sizes, apply
the seen-read check, evaluate the four accept branches (each sign/length test
reads `fdist`, raising `NameError` when it was never assigned), and mark the
read id as seen.  `optDist` is the current value of `fdist`; `pc`/`pr` are the
codon/read positions parsed by the branch of lines 554-557 that assigned
`fdist` (unused when no branch did, since then no accept branch can fire). -/
def afterDist (cfg : Cfg) (st : PState) (fdat : List String)
    (optDist : Option Int) (pc pr : Int) : Except PErr PState :=
  match parseBlockSizes (fdat.getD 10 "") with
  | none => .error .valueError
  | some readlen =>
      let rid := fdat.getD 3 ""
      if rid ∈ st.readids then .ok st
      else
        match optDist with
        | none => .error .nameError
        | some d =>
            let stype := fdat.getD 15 ""
            let strand := fdat.getD 5 ""
            let chr := fdat.getD 0 ""
            let data' :=
              if (d.natAbs : Int) ≤ readlen ∧ 0 ≤ d ∧ stype = cfg.startcodon ∧ strand = "+" ∧
                  cfg.minL ≤ readlen then
                add_start_codon st.data chr pc strand pr readlen
              else if (d.natAbs : Int) ≤ readlen ∧ d ≤ 0 ∧ stype = cfg.stopcodon ∧ strand = "+" ∧
                  cfg.minL ≤ readlen then
                add_stop_codon st.data chr pc strand pr readlen
              else if (d.natAbs : Int) ≤ readlen ∧ d ≤ 0 ∧ stype = cfg.startcodon ∧ strand = "-" ∧
                  cfg.minL ≤ readlen then
                add_start_codon st.data chr pc strand pr readlen
              else if (d.natAbs : Int) ≤ readlen ∧ 0 ≤ d ∧ stype = cfg.stopcodon ∧ strand = "-" ∧
                  cfg.minL ≤ readlen then
                add_stop_codon st.data chr pc strand pr readlen
              else st.data
            .ok { st with data := data', readids := rid :: st.readids }

/-- Source lines 553-557: select the distance branch from codon type and
strand, converting the corresponding position fields (`ValueError` when not
integers), assigning `fdist`; when neither branch applies `fdist` keeps its
previous value. -/
def stepBody (cfg : Cfg) (st : PState) (fdat : List String) : Except PErr PState :=
  let stype := fdat.getD 15 ""
  let strand := fdat.getD 5 ""
  if (stype = cfg.startcodon ∧ strand = "+") ∨ (stype = cfg.stopcodon ∧ strand = "-") then
    match parsePyInt (fdat.getD 13 "").data with
    | none => .error .valueError
    | some p13 =>
        match parsePyInt (fdat.getD 6 "").data with
        | none => .error .valueError
        | some p6 =>
            afterDist cfg { st with lastFdist := some (p13 - p6) } fdat
              (some (p13 - p6)) p13 p6
  else if (stype = cfg.startcodon ∧ strand = "-") ∨ (stype = cfg.stopcodon ∧ strand = "+") then
    match parsePyInt (fdat.getD 14 "").data with
    | none => .error .valueError
    | some p14 =>
        match parsePyInt (fdat.getD 7 "").data with
        | none => .error .valueError
        | some p7 =>
            afterDist cfg { st with lastFdist := some (p14 - p7) } fdat
              (some (p14 - p7)) p14 p7
  else
    afterDist cfg st fdat st.lastFdist 0 0

/-- One iteration of the parsing loop (source lines 547-568) on a raw line:
strip newlines, test the feature pattern, convert the quality field
(`fdat[4]`, `IndexError`/`ValueError` possible), and apply the
chromosome/strand/quality guard with Python `and` short-circuit evaluation
(`fdat[12]` is accessed first; `fdat[17]` only when the chromosomes match). -/
def lineStep (cfg : Cfg) (st : PState) (raw : String) : Except PErr PState :=
  let fdat := fieldsOf raw
  if matchesPattern cfg fdat then
    match fdat.get? 4 with
    | none => .error .indexError
    | some f4 =>
        match parsePyFloat f4.data with
        | none => .error .valueError
        | some qual =>
            match fdat.get? 12 with
            | none => .error .indexError
            | some f12 =>
                if fdat.getD 0 "" = f12 then
                  match fdat.get? 17 with
                  | none => .error .indexError
                  | some f17 =>
                      if fdat.getD 5 "" = f17 ∧ DecQ.le cfg.minQ qual then
                        stepBody cfg st fdat
                      else .ok st
                else .ok st
  else .ok st

/-- The parsing loop over a list of input lines, propagating any raised
exception (there is no handler in the source). -/
def runSteps (cfg : Cfg) (st : PState) : List String → Except PErr PState
  | [] => .ok st
  | l :: ls =>
      match lineStep cfg st l with
      | .error e => .error e
      | .ok st' => runSteps cfg st' ls

/-- `parse_start_stop_codon` (source lines 536-570): run the loop from the
fresh state and return the aggregator. -/
def parse_start_stop_codon (cfg : Cfg) (lines : List String) :
    Except PErr StartStopData :=
  (runSteps cfg initState lines).map (·.data)

/-! ### The reduction methods (source lines 103-155) -/

/-- `start_len_dict[int(e[3])].append(int(e[2]))` with `KeyError` fallback
(source lines 113-116, 140-143): append the observation's distance to the
entry of its read length. -/
def lenDictStep (acc : List (Int × List Int)) (o : Obs) : List (Int × List Int) :=
  if acc.any (fun p => p.1 = o.readlen) then
    acc.map (fun p => if p.1 = o.readlen then (p.1, p.2 ++ [o.dist]) else p)
  else acc ++ [(o.readlen, [o.dist])]

/-- The read-length-to-distances dictionary built from the sites whose
observation count is at least `mincount` (source lines 108-116, 135-143). -/
def buildLenDict (sites : List (String × List Obs)) (mincount : Int) :
    List (Int × List Int) :=
  sites.foldl
    (fun acc p => if mincount ≤ (p.2.length : Int) then p.2.foldl lenDictStep acc else acc)
    []

/-- The reduced coverage matrix: row labels, column labels, and the integer
cells in row-major order. -/
structure CoverageMatrix where
  rows : List Int
  cols : List Int
  cells : List (List Nat)
deriving DecidableEq, Repr

/-- `sorted(...)` on a list of integers. -/
def sortInts (l : List Int) : List Int := l.insertionSort (· ≤ ·)

/-- `sorted(...)` on a set of integers modelled as a list: distinct members in
ascending order. -/
def sortDedup (l : List Int) : List Int := sortInts l.dedup

/-- The distance list of one read length in the length dictionary (dictionary
indexing on the association list; empty when the key is absent — keys are
unique by construction). -/
def lookupRL : List (Int × List Int) → Int → List Int
  | [], _ => []
  | p :: ps, rl => if p.1 = rl then p.2 else lookupRL ps rl

/-- The shared body of the two reduction methods (their code is identical up
to the class they read): columns are the sorted class distance set, rows the
sorted read lengths of the length dictionary over the sites passing the
minimum count, and each cell counts the occurrences of its column's distance
among the observations of its row's read length (`np.unique` with counts,
aligned by `DataFrame.append` and `fillna(0)`). -/
def reduceClass (sites : List (String × List Obs)) (dists : List Int)
    (mincount : Int) : CoverageMatrix :=
  let ld := buildLenDict sites mincount
  let cols := sortDedup dists
  let rows := sortInts (ld.map (·.1))
  { rows := rows, cols := cols,
    cells := rows.map (fun rl => cols.map (fun d => (lookupRL ld rl).count d)) }

/-- `StartStopData.get_start_codon_dist_count` (source lines 103-128). -/
def get_start_codon_dist_count (dat : StartStopData) (mincount : Int) :
    CoverageMatrix :=
  reduceClass dat.startcodons dat.start_dist mincount

/-- `StartStopData.get_stop_codon_dist_count` (source lines 130-155). -/
def get_stop_codon_dist_count (dat : StartStopData) (mincount : Int) :
    CoverageMatrix :=
  reduceClass dat.stopcodons dat.stop_dist mincount

/-- The Python signature `get_start_codon_dist_count(self, mincount=20)`
invoked without an explicit argument (source line 103). -/
def get_start_codon_dist_count_default (dat : StartStopData) : CoverageMatrix :=
  get_start_codon_dist_count dat 20

/-- The Python signature `get_stop_codon_dist_count(self, mincount=20)`
invoked without an explicit argument (source line 130). -/
def get_stop_codon_dist_count_default (dat : StartStopData) : CoverageMatrix :=
  get_stop_codon_dist_count dat 20

/-- A method call on the aggregator object, as (result, state of the object
after the call): the bodies of the two reduction methods only read
`self.startcodons`/`self.stopcodons` and the distance sets into method-local
variables and never assign any attribute of `self`, so the post-state of the
object is the pre-state. -/
def get_start_codon_dist_count_call (dat : StartStopData) (mincount : Int) :
    CoverageMatrix × StartStopData :=
  (get_start_codon_dist_count dat mincount, dat)

/-- Stop-codon analogue of `get_start_codon_dist_count_call`. -/
def get_stop_codon_dist_count_call (dat : StartStopData) (mincount : Int) :
    CoverageMatrix × StartStopData :=
  (get_stop_codon_dist_count dat mincount, dat)

/-- The matrix-producing pipeline of `main` (source lines 640-642): parse the
input, then reduce both classes with the caller's minimum site count. -/
def reduceRun (cfg : Cfg) (lines : List String) (mincount : Int) :
    Except PErr (CoverageMatrix × CoverageMatrix) :=
  (parse_start_stop_codon cfg lines).map
    (fun dat => (get_start_codon_dist_count dat mincount, get_stop_codon_dist_count dat mincount))

/-! ### Observation views and the reachable-state invariant -/

/-- All observations of a site dictionary, in site order. -/
def allObs (sites : List (String × List Obs)) : List Obs :=
  (sites.map (·.2)).flatten

/-- The sites whose observation count is at least `mincount`
(`dat.shape[0]>=mincount`, source lines 111, 138). -/
def passingSites (sites : List (String × List Obs)) (mincount : Int) :
    List (String × List Obs) :=
  sites.filter (fun p => mincount ≤ (p.2.length : Int))

/-- All observations at sites passing the minimum-site-count filter. -/
def passObs (sites : List (String × List Obs)) (mincount : Int) : List Obs :=
  allObs (passingSites sites mincount)

/-- The invariant every state reachable through
`add_start_codon`/`add_stop_codon` satisfies: each class's distance set holds
exactly the distances of the stored observations of that class.  Under it the
pandas column alignment of the reduction (`DataFrame.append` of per-length
frames into the frame over the class-wide column set) is exactly the
count-per-column matrix modelled by `get_start_codon_dist_count` /
`get_stop_codon_dist_count`. -/
def WFData (dat : StartStopData) : Prop :=
  (∀ d, d ∈ dat.start_dist ↔ d ∈ (allObs dat.startcodons).map (·.dist)) ∧
  (∀ d, d ∈ dat.stop_dist ↔ d ∈ (allObs dat.stopcodons).map (·.dist))

/-- The state-independent error conditions of the loop body after the
chromosome/strand/quality guard has passed (source lines 553-558): a
non-integer position field in the branch that computes `fdist`, or a failing
block-sizes sum.  (The possible `NameError` on a stale `fdist` depends on the
loop state and is not a malformed-field condition.) -/
def bodyMalformed (cfg : Cfg) (fdat : List String) : Bool :=
  let stype := fdat.getD 15 ""
  let strand := fdat.getD 5 ""
  if (stype = cfg.startcodon ∧ strand = "+") ∨ (stype = cfg.stopcodon ∧ strand = "-") then
    match parsePyInt (fdat.getD 13 "").data with
    | none => true
    | some _ =>
        match parsePyInt (fdat.getD 6 "").data with
        | none => true
        | some _ => (parseBlockSizes (fdat.getD 10 "")).isNone
  else if (stype = cfg.startcodon ∧ strand = "-") ∨ (stype = cfg.stopcodon ∧ strand = "+") then
    match parsePyInt (fdat.getD 14 "").data with
    | none => true
    | some _ =>
        match parsePyInt (fdat.getD 7 "").data with
        | none => true
        | some _ => (parseBlockSizes (fdat.getD 10 "")).isNone
  else (parseBlockSizes (fdat.getD 10 "")).isNone

/-- A line on which the loop body raises independently of the loop state,
following the evaluation order of source lines 549-558: the line matches the
feature pattern and then a required access or conversion fails — the quality
field (missing or non-numeric), the chromosome field 12 (missing), the strand
field 17 (missing, only reached when the chromosomes match), or — once the
whole guard passes — a branch position field or the block sizes. -/
def malformedLine (cfg : Cfg) (raw : String) : Bool :=
  let fdat := fieldsOf raw
  matchesPattern cfg fdat &&
    (match fdat.get? 4 with
     | none => true
     | some f4 =>
         match parsePyFloat f4.data with
         | none => true
         | some qual =>
             match fdat.get? 12 with
             | none => true
             | some f12 =>
                 if fdat.getD 0 "" = f12 then
                   match fdat.get? 17 with
                   | none => true
                   | some f17 =>
                       if fdat.getD 5 "" = f17 ∧ DecQ.le cfg.minQ qual then
                         bodyMalformed cfg fdat
                       else false
                 else false)

/-- The guard stages 1-3 of the filter (pattern match, chromosome equality,
strand equality, quality at least the minimum — source lines 549-552), all
passing.  A record satisfying this reaches the loop body of lines 553-568. -/
def passesChecks (cfg : Cfg) (raw : String) : Bool :=
  let fdat := fieldsOf raw
  matchesPattern cfg fdat &&
    (match fdat.get? 4 with
     | none => false
     | some f4 =>
         match parsePyFloat f4.data with
         | none => false
         | some qual =>
             match fdat.get? 12, fdat.get? 17 with
             | some f12, some f17 =>
                 decide (fdat.getD 0 "" = f12) && decide (fdat.getD 5 "" = f17) &&
                   decide (DecQ.le cfg.minQ qual)
             | _, _ => false)

/-- The spec's signed-distance convention, following §4.1 step 4 of the
specification text: for (start codon, `+` strand) or (stop codon, `-`
strand) the distance is codon-begin-position minus read-start-position,
otherwise codon-end-position minus read-end-position.  This is the second,
spec-side definition used by the refinement comparison of the stored
distance against the filter's distance. -/
def spec41_signed_distance (isStart : Bool) (strand : String)
    (codonBegin readStart codonEnd readEnd : Int) : Int :=
  if (isStart = true ∧ strand = "+") ∨ (isStart = false ∧ strand = "-") then
    codonBegin - readStart
  else codonEnd - readEnd

/-! ### Concrete input lines used by the scenario claims -/

/-- A `+`-strand start-codon record: read on `chr1` starting at 100, read id
`r1`, quality 15, one block of size 30, paired with the start codon at
110-113 on the same chromosome and strand (the Scenario C record). -/
def lineC : String :=
  "chr1\t100\t130\tr1\t15\t+\t100\t130\t.\t1\t30\t0\tchr1\t110\t113\tstart_codon\tg1\t+"

/-- The same record with a trailing comma in the block-sizes field. -/
def lineC8 : String :=
  "chr1\t100\t130\tr1\t15\t+\t100\t130\t.\t1\t30,\t0\tchr1\t110\t113\tstart_codon\tg1\t+"

/-- A second qualifying `+`-strand start-codon record with the same read id
`r1` but a different codon site (112-115). -/
def lineB : String :=
  "chr1\t100\t130\tr1\t15\t+\t100\t130\t.\t1\t30\t0\tchr1\t112\t115\tstart_codon\tg1\t+"

/-- A pattern-matching record whose quality field is not numeric. -/
def lineQbad : String :=
  "chr1\t100\t130\tr2\txx\t+\t100\t130\t.\t1\t30\t0\tchr1\t110\t113\tstart_codon\tg1\t+"

/-- A pattern-matching line with only 13 fields whose chromosome field
differs from field 12. -/
def lineShort : String :=
  "chrX\t1\t2\tr9\t15\t+\t1\t2\tstart_codon\t1\t30\t0\tchrY"

/-- An aggregator state holding one start-codon site with one observation. -/
def datC6 : StartStopData := add_start_codon emptyData "chr1" 110 "+" 100 30

/-- The loop state after processing `lineC`: read id `r1` seen, one stored
start-codon observation, `fdist` last assigned 10. -/
def stA : PState :=
  ⟨["r1"], ⟨[("chr1|110|+", [⟨110, 100, -10, 30⟩])], [], [-10], []⟩, some 10⟩

/-- The loop state after additionally processing `lineB` from `stA`: the
data unchanged (read id `r1` already seen), only `fdist` reassigned to 12. -/
def stB : PState :=
  ⟨["r1"], ⟨[("chr1|110|+", [⟨110, 100, -10, 30⟩])], [], [-10], []⟩, some 12⟩

/-- An aggregator state with two start-codon sites: `c|5|+` holding two
observations (read lengths 30 and 25) and `d|9|+` holding one (read length
25). -/
def datC5 : StartStopData :=
  add_start_codon
    (add_start_codon (add_start_codon emptyData "c" 5 "+" 1 30) "c" 5 "+" 2 25)
    "d" 9 "+" 3 25

/-- The same aggregate content as `datC5` with the site dictionary and the
distance set enumerated in a different order (as a hash-based dictionary and
set may do). -/
def datC9 : StartStopData :=
  ⟨[("d|9|+", [⟨9, 3, -6, 25⟩]), ("c|5|+", [⟨5, 1, -4, 30⟩, ⟨5, 2, -3, 25⟩])],
    [], [-3, -6, -4], []⟩

/-! ## Theorems -/

/-- `splitOnChar` never returns the empty list. -/
theorem splitOnChar_ne_nil (c : Char) (l : List Char) : splitOnChar c l ≠ [] := by
  induction l with
  | nil => simp [splitOnChar]
  | cons x xs ih =>
      unfold splitOnChar
      cases h : splitOnChar c xs with
      | nil => simp
      | cons hd tl => dsimp; split <;> simp

/-- Splitting a list ending in the separator yields a trailing empty
component. -/
theorem splitOnChar_append_sep (c : Char) (cs : List Char) :
    splitOnChar c (cs ++ [c]) = splitOnChar c cs ++ [[]] := by
  induction cs with
  | nil => simp [splitOnChar]
  | cons x xs ih =>
      simp only [List.cons_append]
      unfold splitOnChar
      rw [ih]
      cases h : splitOnChar c xs with
      | nil => exact absurd h (splitOnChar_ne_nil c xs)
      | cons hd tl => dsimp; split <;> simp

/-- The empty string is not a Python integer. -/
theorem parsePyInt_nil : parsePyInt [] = none := rfl

/-- A block-size list with a trailing empty component never sums. -/
theorem sumBlockSizes_append_nil (ps : List (List Char)) :
    sumBlockSizes (ps ++ [[]]) = none := by
  induction ps with
  | nil => decide
  | cons p ps ih =>
      simp only [List.cons_append, sumBlockSizes, List.append_eq, ih]
      cases parsePyInt p <;> rfl

/-- A loop body flagged by `bodyMalformed` raises in every state. -/
theorem stepBody_error_of_bodyMalformed (cfg : Cfg) (st : PState)
    (fdat : List String) (h : bodyMalformed cfg fdat = true) :
    ∃ e, stepBody cfg st fdat = .error e := by
  simp only [bodyMalformed] at h
  simp only [stepBody]
  by_cases hA : (fdat.getD 15 "" = cfg.startcodon ∧ fdat.getD 5 "" = "+") ∨
      (fdat.getD 15 "" = cfg.stopcodon ∧ fdat.getD 5 "" = "-")
  · simp only [if_pos hA] at h ⊢
    cases h13 : parsePyInt (fdat.getD 13 "").data with
    | none => exact ⟨.valueError, rfl⟩
    | some p13 =>
        simp only [h13] at h ⊢
        cases h6 : parsePyInt (fdat.getD 6 "").data with
        | none => exact ⟨.valueError, rfl⟩
        | some p6 =>
            simp only [h6] at h ⊢
            have hbs : parseBlockSizes (fdat.getD 10 "") = none :=
              Option.isNone_iff_eq_none.mp h
            exact ⟨.valueError, by simp only [afterDist, hbs]⟩
  · simp only [if_neg hA] at h ⊢
    by_cases hB : (fdat.getD 15 "" = cfg.startcodon ∧ fdat.getD 5 "" = "-") ∨
        (fdat.getD 15 "" = cfg.stopcodon ∧ fdat.getD 5 "" = "+")
    · simp only [if_pos hB] at h ⊢
      cases h14 : parsePyInt (fdat.getD 14 "").data with
      | none => exact ⟨.valueError, rfl⟩
      | some p14 =>
          simp only [h14] at h ⊢
          cases h7 : parsePyInt (fdat.getD 7 "").data with
          | none => exact ⟨.valueError, rfl⟩
          | some p7 =>
              simp only [h7] at h ⊢
              have hbs : parseBlockSizes (fdat.getD 10 "") = none :=
                Option.isNone_iff_eq_none.mp h
              exact ⟨.valueError, by simp only [afterDist, hbs]⟩
    · simp only [if_neg hB] at h ⊢
      have hbs : parseBlockSizes (fdat.getD 10 "") = none :=
        Option.isNone_iff_eq_none.mp h
      exact ⟨.valueError, by simp only [afterDist, hbs]⟩

/-- A line flagged by `malformedLine` makes `lineStep` raise in every state. -/
theorem lineStep_error_of_malformed (cfg : Cfg) (raw : String)
    (h : malformedLine cfg raw = true) (st : PState) :
    ∃ e, lineStep cfg st raw = .error e := by
  simp only [malformedLine, Bool.and_eq_true] at h
  obtain ⟨hpat, h⟩ := h
  simp only [lineStep, hpat, if_true]
  cases h4 : (fieldsOf raw).get? 4 with
  | none => exact ⟨.indexError, rfl⟩
  | some f4 =>
      simp only [h4] at h ⊢
      cases hq : parsePyFloat f4.data with
      | none => exact ⟨.valueError, rfl⟩
      | some qual =>
          simp only [hq] at h ⊢
          cases h12 : (fieldsOf raw).get? 12 with
          | none => exact ⟨.indexError, rfl⟩
          | some f12 =>
              simp only [h12] at h ⊢
              by_cases hc : (fieldsOf raw).getD 0 "" = f12
              · simp only [if_pos hc] at h ⊢
                cases h17 : (fieldsOf raw).get? 17 with
                | none => exact ⟨.indexError, rfl⟩
                | some f17 =>
                    simp only [h17] at h ⊢
                    by_cases hg : (fieldsOf raw).getD 5 "" = f17 ∧ DecQ.le cfg.minQ qual
                    · simp only [if_pos hg] at h ⊢
                      exact stepBody_error_of_bodyMalformed cfg st (fieldsOf raw) h
                    · simp only [if_neg hg] at h
                      cases h
              · simp only [if_neg hc] at h
                cases h

/-- A malformed line anywhere in the input aborts the whole run, from any
starting state. -/
theorem runSteps_error_of_malformed (cfg : Cfg) (raw : String)
    (h2 : malformedLine cfg raw = true) :
    ∀ (lines : List String), raw ∈ lines → ∀ st, ∃ e, runSteps cfg st lines = .error e := by
  intro lines
  induction lines with
  | nil => intro hmem; cases hmem
  | cons l ls ih =>
      intro hmem st
      rw [List.mem_cons] at hmem
      cases hmem with
      | inl heq =>
          obtain ⟨e, he⟩ := lineStep_error_of_malformed cfg raw h2 st
          exact ⟨e, by simp only [runSteps, heq ▸ he]⟩
      | inr hmem' =>
          cases hstep : lineStep cfg st l with
          | error e => exact ⟨e, by simp only [runSteps, hstep]⟩
          | ok st' =>
              obtain ⟨e, he⟩ := ih hmem' st'
              exact ⟨e, by simp only [runSteps, hstep, he]⟩

/-- C7 counterexample: the claim as stated fails — this pattern-matching line
has only 13 fields (it lacks the expected 18-field count), yet the parse run
does not abort: the chromosome-equality conjunct `fdat[0]==fdat[12]` is
evaluated first, is false, and Python's short-circuit `and` skips the line
silently before any missing field is accessed. -/
theorem C7_counterexample :
    matchesPattern defaultCfg (fieldsOf lineShort) = true ∧
    (fieldsOf lineShort).length = 13 ∧
    parse_start_stop_codon defaultCfg [lineShort] = .ok emptyData := by
  decide

/-- C7 amended: for every input line matching the codon-type pattern, if a
field access or numeric conversion required along the code's evaluation order
fails — the quality field missing or non-numeric, field 12 missing, field 17
missing once the chromosomes match, or (once the whole guard passes) a branch
position field or block-sizes component non-numeric — then the parse run
aborts with a propagated error rather than silently skipping the line
(`malformedLine` is exactly that condition). -/
theorem C7_malformed_line_aborts_run (cfg : Cfg) (lines : List String)
    (raw : String) (h1 : raw ∈ lines) (h2 : malformedLine cfg raw = true) :
    ∃ e, parse_start_stop_codon cfg lines = .error e := by
  obtain ⟨e, he⟩ := runSteps_error_of_malformed cfg raw h2 lines h1 initState
  exact ⟨e, by simp only [parse_start_stop_codon, he, Except.map]⟩

/-- Witness for C7: a pattern-matching record with non-numeric quality field
aborts the run. -/
theorem C7_malformed_line_aborts_run_witness :
    lineQbad ∈ [lineQbad] ∧ malformedLine defaultCfg lineQbad = true ∧
    ∃ e, parse_start_stop_codon defaultCfg [lineQbad] = .error e :=
  ⟨by decide, by decide,
    C7_malformed_line_aborts_run defaultCfg [lineQbad] lineQbad (by decide) (by decide)⟩

/-- Outcome of `afterDist` on success: either the read id was already seen
and the state is returned unchanged, or it was unseen and is now prepended
to the seen set (the aggregator may or may not have grown). -/
theorem afterDist_ok_shape (cfg : Cfg) (st : PState) (fdat : List String)
    (o : Option Int) (pc pr : Int) (st' : PState)
    (h : afterDist cfg st fdat o pc pr = .ok st') :
    (fdat.getD 3 "" ∈ st.readids ∧ st' = st) ∨
    (fdat.getD 3 "" ∉ st.readids ∧ st'.readids = fdat.getD 3 "" :: st.readids ∧
      st'.lastFdist = st.lastFdist) := by
  simp only [afterDist] at h
  cases hbs : parseBlockSizes (fdat.getD 10 "") with
  | none => simp only [hbs] at h; exact Except.noConfusion h
  | some readlen =>
      simp only [hbs] at h
      by_cases hmem : fdat.getD 3 "" ∈ st.readids
      · rw [if_pos hmem] at h
        injection h with h
        exact Or.inl ⟨hmem, h.symm⟩
      · rw [if_neg hmem] at h
        cases o with
        | none => exact Except.noConfusion h
        | some d =>
            injection h with h
            refine Or.inr ⟨hmem, ?_, ?_⟩ <;> rw [← h]

/-- Outcome of `stepBody` on success: the read id was seen and the seen set
and aggregator are unchanged, or it was unseen and is now marked. -/
theorem stepBody_ok_shape (cfg : Cfg) (st : PState) (fdat : List String)
    (st' : PState) (h : stepBody cfg st fdat = .ok st') :
    (fdat.getD 3 "" ∈ st.readids ∧ st'.readids = st.readids ∧ st'.data = st.data) ∨
    (fdat.getD 3 "" ∉ st.readids ∧ st'.readids = fdat.getD 3 "" :: st.readids) := by
  simp only [stepBody] at h
  by_cases hA : (fdat.getD 15 "" = cfg.startcodon ∧ fdat.getD 5 "" = "+") ∨
      (fdat.getD 15 "" = cfg.stopcodon ∧ fdat.getD 5 "" = "-")
  · rw [if_pos hA] at h
    cases h13 : parsePyInt (fdat.getD 13 "").data with
    | none => simp only [h13] at h; exact Except.noConfusion h
    | some p13 =>
        simp only [h13] at h
        cases h6 : parsePyInt (fdat.getD 6 "").data with
        | none => simp only [h6] at h; exact Except.noConfusion h
        | some p6 =>
            simp only [h6] at h
            rcases afterDist_ok_shape cfg _ fdat _ p13 p6 st' h with ⟨hm, hs⟩ | ⟨hm, hr, _⟩
            · exact Or.inl ⟨hm, by rw [hs], by rw [hs]⟩
            · exact Or.inr ⟨hm, hr⟩
  · rw [if_neg hA] at h
    by_cases hB : (fdat.getD 15 "" = cfg.startcodon ∧ fdat.getD 5 "" = "-") ∨
        (fdat.getD 15 "" = cfg.stopcodon ∧ fdat.getD 5 "" = "+")
    · rw [if_pos hB] at h
      cases h14 : parsePyInt (fdat.getD 14 "").data with
      | none => simp only [h14] at h; exact Except.noConfusion h
      | some p14 =>
          simp only [h14] at h
          cases h7 : parsePyInt (fdat.getD 7 "").data with
          | none => simp only [h7] at h; exact Except.noConfusion h
          | some p7 =>
              simp only [h7] at h
              rcases afterDist_ok_shape cfg _ fdat _ p14 p7 st' h with ⟨hm, hs⟩ | ⟨hm, hr, _⟩
              · exact Or.inl ⟨hm, by rw [hs], by rw [hs]⟩
              · exact Or.inr ⟨hm, hr⟩
    · rw [if_neg hB] at h
      rcases afterDist_ok_shape cfg st fdat st.lastFdist 0 0 st' h with ⟨hm, hs⟩ | ⟨hm, hr, _⟩
      · exact Or.inl ⟨hm, by rw [hs], by rw [hs]⟩
      · exact Or.inr ⟨hm, hr⟩

/-- Outcome of one loop iteration on success: either the seen set and
aggregator are unchanged (skipped, or already-seen read id), or the read id
was unseen and is now marked. -/
theorem lineStep_ok_shape (cfg : Cfg) (st : PState) (raw : String) (st' : PState)
    (h : lineStep cfg st raw = .ok st') :
    (st'.readids = st.readids ∧ st'.data = st.data) ∨
    (fld raw 3 ∉ st.readids ∧ st'.readids = fld raw 3 :: st.readids) := by
  simp only [lineStep] at h
  by_cases hpat : matchesPattern cfg (fieldsOf raw) = true
  · rw [if_pos hpat] at h
    cases h4 : (fieldsOf raw).get? 4 with
    | none => simp only [h4] at h; exact Except.noConfusion h
    | some f4 =>
        simp only [h4] at h
        cases hqq : parsePyFloat f4.data with
        | none => simp only [hqq] at h; exact Except.noConfusion h
        | some qual =>
            simp only [hqq] at h
            cases h12 : (fieldsOf raw).get? 12 with
            | none => simp only [h12] at h; exact Except.noConfusion h
            | some f12 =>
                simp only [h12] at h
                by_cases hc : (fieldsOf raw).getD 0 "" = f12
                · rw [if_pos hc] at h
                  cases h17 : (fieldsOf raw).get? 17 with
                  | none => simp only [h17] at h; exact Except.noConfusion h
                  | some f17 =>
                      simp only [h17] at h
                      by_cases hg : (fieldsOf raw).getD 5 "" = f17 ∧ DecQ.le cfg.minQ qual
                      · rw [if_pos hg] at h
                        rcases stepBody_ok_shape cfg st (fieldsOf raw) st' h with
                          ⟨_, hr, hd⟩ | ⟨hm, hr⟩
                        · exact Or.inl ⟨hr, hd⟩
                        · exact Or.inr ⟨hm, hr⟩
                      · rw [if_neg hg] at h
                        injection h with h
                        exact Or.inl ⟨by rw [← h], by rw [← h]⟩
                · rw [if_neg hc] at h
                  injection h with h
                  exact Or.inl ⟨by rw [← h], by rw [← h]⟩
  · rw [if_neg hpat] at h
    injection h with h
    exact Or.inl ⟨by rw [← h], by rw [← h]⟩

/-- One loop iteration never removes a read id from the seen set. -/
theorem lineStep_readids_incl (cfg : Cfg) (st : PState) (raw : String)
    (st' : PState) (h : lineStep cfg st raw = .ok st') :
    st.readids ⊆ st'.readids := by
  rcases lineStep_ok_shape cfg st raw st' h with ⟨hr, _⟩ | ⟨_, hr⟩
  · rw [hr]; exact List.Subset.refl _
  · rw [hr]; exact List.subset_cons_self _ _

/-- The whole run never removes a read id from the seen set. -/
theorem runSteps_readids_incl (cfg : Cfg) :
    ∀ (lines : List String) (st st₃ : PState),
      runSteps cfg st lines = .ok st₃ → st.readids ⊆ st₃.readids := by
  intro lines
  induction lines with
  | nil =>
      intro st st₃ h
      injection h with h
      rw [h]; exact List.Subset.refl _
  | cons l ls ih =>
      intro st st₃ h
      simp only [runSteps] at h
      cases hstep : lineStep cfg st l with
      | error e => rw [hstep] at h; exact Except.noConfusion h
      | ok st' =>
          simp only [hstep] at h
          exact (lineStep_readids_incl cfg st l st' hstep).trans (ih st' st₃ h)

/-- Processing a record whose read id is already seen leaves the
aggregator unchanged. -/
theorem lineStep_data_eq_of_seen (cfg : Cfg) (st : PState) (raw : String)
    (st' : PState) (h : lineStep cfg st raw = .ok st')
    (hmem : fld raw 3 ∈ st.readids) : st'.data = st.data := by
  rcases lineStep_ok_shape cfg st raw st' h with ⟨_, hd⟩ | ⟨hnot, _⟩
  · exact hd
  · exact absurd hmem hnot

/-- An unseen read id reaching the loop body gets marked as seen. -/
theorem stepBody_marks (cfg : Cfg) (st : PState) (fdat : List String)
    (st' : PState) (h : stepBody cfg st fdat = .ok st')
    (hun : fdat.getD 3 "" ∉ st.readids) : fdat.getD 3 "" ∈ st'.readids := by
  rcases stepBody_ok_shape cfg st fdat st' h with ⟨hm, _, _⟩ | ⟨_, hr⟩
  · exact absurd hm hun
  · rw [hr]; exact List.mem_cons_self _ _

/-- A record passing guard stages 1-3 whose read id is unseen marks the read
id as seen, whatever the sign/length checks decide. -/
theorem lineStep_marks (cfg : Cfg) (st : PState) (raw : String) (st' : PState)
    (h : lineStep cfg st raw = .ok st') (hp : passesChecks cfg raw = true)
    (hun : fld raw 3 ∉ st.readids) : fld raw 3 ∈ st'.readids := by
  simp only [passesChecks, Bool.and_eq_true] at hp
  obtain ⟨hpat, hp⟩ := hp
  simp only [lineStep, hpat, if_true] at h
  cases h4 : (fieldsOf raw).get? 4 with
  | none => simp only [h4, Bool.false_eq_true] at hp
  | some f4 =>
      simp only [h4] at hp h
      cases hqq : parsePyFloat f4.data with
      | none => simp only [hqq, Bool.false_eq_true] at hp
      | some qual =>
          simp only [hqq] at hp h
          cases h12 : (fieldsOf raw).get? 12 with
          | none => simp only [h12, Bool.false_eq_true] at hp
          | some f12 =>
              simp only [h12] at hp h
              cases h17 : (fieldsOf raw).get? 17 with
              | none => simp only [h17, Bool.false_eq_true] at hp
              | some f17 =>
                  simp only [h17] at hp
                  simp only [Bool.and_eq_true, decide_eq_true_eq] at hp
                  obtain ⟨⟨hc0, hc5⟩, hcq⟩ := hp
                  rw [if_pos hc0] at h
                  simp only [h17] at h
                  rw [if_pos (And.intro hc5 hcq)] at h
                  exact stepBody_marks cfg st (fieldsOf raw) st' h hun

/-- C2: at-most-one contribution per read id.  (i) A record passing the
pattern/chromosome/strand/quality checks with an unseen read id marks the id
as seen, even when the sign/length checks then reject it; (ii) whenever a
record changes the aggregator its read id was unseen before the record and is
seen after it; (iii) once a read id is in the seen set, any later record
carrying the same id leaves the aggregator unchanged — so across a whole run
at most one record per read id contributes to the start and stop
accumulations combined. -/
theorem C2_at_most_one_contribution_per_read (cfg : Cfg) :
    (∀ st raw st', lineStep cfg st raw = .ok st' → passesChecks cfg raw = true →
        fld raw 3 ∉ st.readids → fld raw 3 ∈ st'.readids) ∧
    (∀ st raw st', lineStep cfg st raw = .ok st' → st'.data ≠ st.data →
        fld raw 3 ∉ st.readids ∧ fld raw 3 ∈ st'.readids) ∧
    (∀ s2 s3 s4 mid b, runSteps cfg s2 mid = .ok s3 → lineStep cfg s3 b = .ok s4 →
        fld b 3 ∈ s2.readids → s4.data = s3.data) := by
  refine ⟨fun st raw st' h hp hun => lineStep_marks cfg st raw st' h hp hun,
    fun st raw st' h hch => ?_, fun s2 s3 s4 mid b hrun hb hmem => ?_⟩
  · rcases lineStep_ok_shape cfg st raw st' h with ⟨_, hd⟩ | ⟨hm, hr⟩
    · exact absurd hd hch
    · exact ⟨hm, by rw [hr]; exact List.mem_cons_self _ _⟩
  · exact lineStep_data_eq_of_seen cfg s3 b s4 hb
      (runSteps_readids_incl cfg mid s2 s3 hrun hmem)

/-- Witness for C2: after the Scenario C record is accepted (state `stA`,
read id `r1` seen), the second qualifying record `lineB` with the same read
id leaves the aggregator unchanged. -/
theorem C2_at_most_one_contribution_per_read_witness :
    runSteps defaultCfg stA [] = .ok stA ∧
    lineStep defaultCfg stA lineB = .ok stB ∧
    fld lineB 3 ∈ stA.readids ∧
    stB.data = stA.data :=
  ⟨rfl, by decide, by decide,
    (C2_at_most_one_contribution_per_read defaultCfg).2.2 stA stA stB [] lineB rfl
      (by decide) (by decide)⟩

/-- If `afterDist` succeeds and the start-codon dictionary changed, for a
record with the start tag on the `+` strand, then the accept conditions of
source line 560 held and the appended observation is
`mkStartObs pc "+" pr readlen`. -/
theorem afterDist_start_plus (cfg : Cfg) (st : PState) (fdat : List String)
    (d pc pr : Int) (st' : PState)
    (h : afterDist cfg st fdat (some d) pc pr = .ok st')
    (_hT : fdat.getD 15 "" = cfg.startcodon) (hS : fdat.getD 5 "" = "+")
    (hne : st'.data.startcodons ≠ st.data.startcodons) :
    ∃ readlen, parseBlockSizes (fdat.getD 10 "") = some readlen ∧
      (d.natAbs : Int) ≤ readlen ∧ 0 ≤ d ∧ cfg.minL ≤ readlen ∧
      st'.data.startcodons =
        assocAppend st.data.startcodons (siteKey (fdat.getD 0 "") pc "+")
          (mkStartObs pc "+" pr readlen) := by
  simp only [afterDist] at h
  cases hbs : parseBlockSizes (fdat.getD 10 "") with
  | none => simp only [hbs] at h; exact Except.noConfusion h
  | some readlen =>
      simp only [hbs] at h
      by_cases hmem : fdat.getD 3 "" ∈ st.readids
      · rw [if_pos hmem] at h
        injection h with h
        exact absurd (by rw [← h]) hne
      · rw [if_neg hmem] at h
        injection h with h
        by_cases h1 : (d.natAbs : Int) ≤ readlen ∧ 0 ≤ d ∧
            fdat.getD 15 "" = cfg.startcodon ∧ fdat.getD 5 "" = "+" ∧ cfg.minL ≤ readlen
        · refine ⟨readlen, rfl, h1.1, h1.2.1, h1.2.2.2.2, ?_⟩
          rw [← h]
          simp only [if_pos h1, add_start_codon]
          rw [hS]
        · exfalso
          apply hne
          rw [← h]
          simp only [if_neg h1]
          by_cases h2 : (d.natAbs : Int) ≤ readlen ∧ d ≤ 0 ∧
              fdat.getD 15 "" = cfg.stopcodon ∧ fdat.getD 5 "" = "+" ∧ cfg.minL ≤ readlen
          · simp only [if_pos h2, add_stop_codon]
          · simp only [if_neg h2]
            by_cases h3 : (d.natAbs : Int) ≤ readlen ∧ d ≤ 0 ∧
                fdat.getD 15 "" = cfg.startcodon ∧ fdat.getD 5 "" = "-" ∧ cfg.minL ≤ readlen
            · exact absurd (hS.symm.trans h3.2.2.2.1) (by decide)
            · simp only [if_neg h3]
              by_cases h4 : (d.natAbs : Int) ≤ readlen ∧ 0 ≤ d ∧
                  fdat.getD 15 "" = cfg.stopcodon ∧ fdat.getD 5 "" = "-" ∧ cfg.minL ≤ readlen
              · exact absurd (hS.symm.trans h4.2.2.2.1) (by decide)
              · simp only [if_neg h4]

/-- `stepBody` analogue of `afterDist_start_plus`: on the `+` strand with the
start tag, a change of the start-codon dictionary implies the branch of
source line 555 computed `fdist = fdat[13] - fdat[6]`, the accept conditions
held, and the appended observation used positions 13 and 6. -/
theorem stepBody_start_plus (cfg : Cfg) (st : PState) (fdat : List String)
    (st' : PState) (h : stepBody cfg st fdat = .ok st')
    (hT : fdat.getD 15 "" = cfg.startcodon) (hS : fdat.getD 5 "" = "+")
    (hne : st'.data.startcodons ≠ st.data.startcodons) :
    ∃ p13 p6 readlen,
      parsePyInt (fdat.getD 13 "").data = some p13 ∧
      parsePyInt (fdat.getD 6 "").data = some p6 ∧
      parseBlockSizes (fdat.getD 10 "") = some readlen ∧
      0 ≤ p13 - p6 ∧ p13 - p6 ≤ readlen ∧ cfg.minL ≤ readlen ∧
      st'.lastFdist = some (p13 - p6) ∧
      st'.data.startcodons =
        assocAppend st.data.startcodons (siteKey (fdat.getD 0 "") p13 "+")
          (mkStartObs p13 "+" p6 readlen) := by
  simp only [stepBody] at h
  rw [if_pos (Or.inl ⟨hT, hS⟩)] at h
  cases h13 : parsePyInt (fdat.getD 13 "").data with
  | none => simp only [h13] at h; exact Except.noConfusion h
  | some p13 =>
      simp only [h13] at h
      cases h6 : parsePyInt (fdat.getD 6 "").data with
      | none => simp only [h6] at h; exact Except.noConfusion h
      | some p6 =>
          simp only [h6] at h
          obtain ⟨readlen, hbs, habs, hpos, hminl, heq⟩ :=
            afterDist_start_plus cfg _ fdat (p13 - p6) p13 p6 st' h hT hS hne
          have hlast : st'.lastFdist = some (p13 - p6) := by
            rcases afterDist_ok_shape cfg _ fdat _ p13 p6 st' h with ⟨_, hs⟩ | ⟨_, _, hl⟩
            · exact absurd (by rw [hs]) hne
            · exact hl
          refine ⟨p13, p6, readlen, rfl, rfl, hbs, hpos, ?_, hminl, hlast, heq⟩
          rwa [Int.natAbs_of_nonneg hpos] at habs

/-- C4: for every start-codon record on the `+` strand that the filter
accepts into the start accumulation, the signed distance the filter computed
and tested (the value assigned to `fdist`, visible as `lastFdist`) equals
codon-begin (field 13) minus read-start (field 6), and acceptance required
`0 ≤ distance ≤ read length` and `read length ≥ minL`; the appended
observation uses exactly (codon-begin, read-start). -/
theorem C4_accepted_plus_start_distance (cfg : Cfg) (st : PState)
    (raw : String) (st' : PState) (h : lineStep cfg st raw = .ok st')
    (hT : fld raw 15 = cfg.startcodon) (hS : fld raw 5 = "+")
    (hne : st'.data.startcodons ≠ st.data.startcodons) :
    ∃ p13 p6 readlen,
      parsePyInt (fld raw 13).data = some p13 ∧
      parsePyInt (fld raw 6).data = some p6 ∧
      parseBlockSizes (fld raw 10) = some readlen ∧
      0 ≤ p13 - p6 ∧ p13 - p6 ≤ readlen ∧ cfg.minL ≤ readlen ∧
      st'.lastFdist = some (p13 - p6) ∧
      st'.data.startcodons =
        assocAppend st.data.startcodons (siteKey (fld raw 0) p13 "+")
          (mkStartObs p13 "+" p6 readlen) := by
  simp only [lineStep] at h
  by_cases hpat : matchesPattern cfg (fieldsOf raw) = true
  · rw [if_pos hpat] at h
    cases h4 : (fieldsOf raw).get? 4 with
    | none => simp only [h4] at h; exact Except.noConfusion h
    | some f4 =>
        simp only [h4] at h
        cases hqq : parsePyFloat f4.data with
        | none => simp only [hqq] at h; exact Except.noConfusion h
        | some qual =>
            simp only [hqq] at h
            cases h12 : (fieldsOf raw).get? 12 with
            | none => simp only [h12] at h; exact Except.noConfusion h
            | some f12 =>
                simp only [h12] at h
                by_cases hc : (fieldsOf raw).getD 0 "" = f12
                · rw [if_pos hc] at h
                  cases h17 : (fieldsOf raw).get? 17 with
                  | none => simp only [h17] at h; exact Except.noConfusion h
                  | some f17 =>
                      simp only [h17] at h
                      by_cases hg : (fieldsOf raw).getD 5 "" = f17 ∧ DecQ.le cfg.minQ qual
                      · rw [if_pos hg] at h
                        exact stepBody_start_plus cfg st (fieldsOf raw) st' h hT hS hne
                      · rw [if_neg hg] at h
                        injection h with h
                        exact absurd (by rw [← h]) hne
                · rw [if_neg hc] at h
                  injection h with h
                  exact absurd (by rw [← h]) hne
  · rw [if_neg hpat] at h
    injection h with h
    exact absurd (by rw [← h]) hne

/-- Witness for C4: applying the characterisation to the Scenario C record,
accepted from the fresh state. -/
theorem C4_accepted_plus_start_distance_witness :
    lineStep defaultCfg initState lineC = .ok stA ∧
    (∃ p13 p6 readlen,
      parsePyInt (fld lineC 13).data = some p13 ∧
      parsePyInt (fld lineC 6).data = some p6 ∧
      parseBlockSizes (fld lineC 10) = some readlen ∧
      0 ≤ p13 - p6 ∧ p13 - p6 ≤ readlen ∧ defaultCfg.minL ≤ readlen ∧
      stA.lastFdist = some (p13 - p6) ∧
      stA.data.startcodons =
        assocAppend initState.data.startcodons (siteKey (fld lineC 0) p13 "+")
          (mkStartObs p13 "+" p6 readlen)) :=
  ⟨by decide,
    C4_accepted_plus_start_distance defaultCfg initState lineC stA (by decide)
      (by decide) (by decide) (by decide)⟩

/-- Updating the entries of key `k` does not change the lookup of another
key. -/
theorem lookupRL_map_update_ne (k d rl : Int) (hne : rl ≠ k) :
    ∀ acc : List (Int × List Int),
      lookupRL (acc.map (fun p => if p.1 = k then (p.1, p.2 ++ [d]) else p)) rl =
        lookupRL acc rl := by
  intro acc
  induction acc with
  | nil => rfl
  | cons p acc ih =>
      simp only [List.map_cons, lookupRL]
      by_cases hpk : p.1 = k
      · have hprl : ¬ p.1 = rl := fun hh => hne (hh.symm.trans hpk)
        rw [if_pos hpk, if_neg hprl, if_neg hprl, ih]
      · rw [if_neg hpk]
        by_cases hprl : p.1 = rl
        · rw [if_pos hprl, if_pos hprl]
        · rw [if_neg hprl, if_neg hprl, ih]

/-- When the key `k` is present, updating its entries appends `d` to its
lookup. -/
theorem lookupRL_map_update_eq (k d : Int) :
    ∀ acc : List (Int × List Int), acc.any (fun p => p.1 = k) = true →
      lookupRL (acc.map (fun p => if p.1 = k then (p.1, p.2 ++ [d]) else p)) k =
        lookupRL acc k ++ [d] := by
  intro acc
  induction acc with
  | nil => intro hpres; simp at hpres
  | cons p acc ih =>
      intro hpres
      simp only [List.map_cons, lookupRL]
      by_cases hpk : p.1 = k
      · simp [hpk]
      · rw [if_neg hpk, if_neg hpk, if_neg hpk]
        apply ih
        simpa [List.any_cons, hpk] using hpres

/-- Lookup after appending a fresh entry for an absent key (the creation arm
of `lenDictStep`). -/
theorem lookupRL_append_absent (k d rl : Int) (acc : List (Int × List Int))
    (hab : acc.any (fun p => p.1 = k) = false) :
    lookupRL (acc ++ [(k, [d])]) rl =
      if k = rl then lookupRL acc rl ++ [d] else lookupRL acc rl := by
  induction acc with
  | nil => simp [lookupRL]
  | cons p acc ih =>
      simp only [List.any_cons, Bool.or_eq_false_iff, decide_eq_false_iff_not] at hab
      simp only [List.cons_append, lookupRL]
      by_cases hprl : p.1 = rl
      · have hkrl : ¬ k = rl := fun hh => hab.1 (hprl.trans hh.symm)
        simp [hprl, hkrl]
      · simp [hprl, ih hab.2]

/-- One observation appends its distance to the list of its read length and
leaves the other read lengths unchanged. -/
theorem lookupRL_lenDictStep (acc : List (Int × List Int)) (o : Obs) (rl : Int) :
    lookupRL (lenDictStep acc o) rl =
      if o.readlen = rl then lookupRL acc rl ++ [o.dist] else lookupRL acc rl := by
  unfold lenDictStep
  by_cases hpres : acc.any (fun p => p.1 = o.readlen) = true
  · rw [if_pos hpres]
    by_cases hrl : o.readlen = rl
    · subst hrl
      rw [if_pos rfl]
      exact lookupRL_map_update_eq _ _ acc hpres
    · rw [if_neg hrl]
      exact lookupRL_map_update_ne _ _ _ (fun hh => hrl hh.symm) acc
  · rw [if_neg hpres,
      lookupRL_append_absent _ _ _ _ (Bool.eq_false_iff.mpr hpres)]

/-- Folding a list of observations appends, per read length, the distances of
that read length in observation order. -/
theorem lookupRL_foldl_obs (rl : Int) (obs : List Obs) :
    ∀ acc, lookupRL (obs.foldl lenDictStep acc) rl =
      lookupRL acc rl ++ (obs.filter (fun o => o.readlen = rl)).map (·.dist) := by
  induction obs with
  | nil => intro acc; simp
  | cons o os ih =>
      intro acc
      simp only [List.foldl_cons]
      rw [ih, lookupRL_lenDictStep]
      by_cases h : o.readlen = rl
      · rw [if_pos h]
        simp [List.filter_cons, h, List.append_assoc]
      · rw [if_neg h]
        simp [List.filter_cons, h]

/-- Unfolding `passObs` over the head site. -/
theorem passObs_cons (s : String × List Obs) (ss : List (String × List Obs))
    (m : Int) :
    passObs (s :: ss) m =
      (if m ≤ (s.2.length : Int) then s.2 else []) ++ passObs ss m := by
  by_cases hm : m ≤ (s.2.length : Int) <;>
    simp [passObs, passingSites, allObs, List.filter_cons, hm]

/-- The per-read-length distance list of the built dictionary is exactly the
distances of the passing observations of that read length, in site and
observation order. -/
theorem lookupRL_buildLenDict (sites : List (String × List Obs)) (m : Int)
    (rl : Int) :
    lookupRL (buildLenDict sites m) rl =
      ((passObs sites m).filter (fun o => o.readlen = rl)).map (·.dist) := by
  suffices h : ∀ acc,
      lookupRL (sites.foldl
        (fun acc p => if m ≤ (p.2.length : Int) then p.2.foldl lenDictStep acc else acc)
        acc) rl =
      lookupRL acc rl ++ ((passObs sites m).filter (fun o => o.readlen = rl)).map (·.dist) by
    simpa [buildLenDict, lookupRL] using h []
  induction sites with
  | nil => intro acc; simp [passObs, passingSites, allObs]
  | cons s ss ih =>
      intro acc
      simp only [List.foldl_cons, passObs_cons]
      by_cases hm : m ≤ (s.2.length : Int)
      · rw [if_pos hm, ih, lookupRL_foldl_obs]
        simp [hm, List.filter_append, List.append_assoc]
      · rw [if_neg hm, ih]
        simp [hm]

/-- Membership in a distance set after insertion. -/
theorem mem_insertDist (s : List Int) (d x : Int) :
    x ∈ insertDist s d ↔ x ∈ s ∨ x = d := by
  unfold insertDist
  by_cases hd : d ∈ s
  · rw [if_pos hd]
    constructor
    · exact Or.inl
    · rintro (h | h)
      · exact h
      · rw [h]; exact hd
  · rw [if_neg hd]; simp

/-- Membership in the observations of a site dictionary after appending one
observation at key `k`. -/
theorem mem_allObs_assocAppend (sites : List (String × List Obs)) (k : String)
    (o x : Obs) :
    x ∈ allObs (assocAppend sites k o) ↔ x ∈ allObs sites ∨ x = o := by
  unfold assocAppend
  by_cases hpres : sites.any (fun p => p.1 = k) = true
  · rw [if_pos hpres]
    simp only [allObs, List.map_map, List.mem_flatten, List.mem_map]
    constructor
    · rintro ⟨l, ⟨p, hp, hl⟩, hxl⟩
      by_cases hpk : p.1 = k
      · rw [← hl] at hxl
        simp only [Function.comp_apply, if_pos hpk] at hxl
        rcases List.mem_append.mp hxl with hx | hx
        · exact Or.inl ⟨p.2, ⟨p, hp, rfl⟩, hx⟩
        · exact Or.inr (List.mem_singleton.mp hx)
      · rw [← hl] at hxl
        simp only [Function.comp_apply, if_neg hpk] at hxl
        exact Or.inl ⟨p.2, ⟨p, hp, rfl⟩, hxl⟩
    · rintro (⟨l, ⟨p, hp, hl⟩, hxl⟩ | rfl)
      · refine ⟨_, ⟨p, hp, rfl⟩, ?_⟩
        rw [← hl] at hxl
        by_cases hpk : p.1 = k <;> simp [hpk, hxl]
      · obtain ⟨p, hp, hdec⟩ := List.any_eq_true.mp hpres
        refine ⟨_, ⟨p, hp, rfl⟩, ?_⟩
        simp [of_decide_eq_true hdec]
  · rw [if_neg hpres]
    simp [allObs, List.map_append, List.flatten_append]

/-- Accumulating a start-codon observation preserves the reachable-state
invariant. -/
theorem WFData_add_start_codon (dat : StartStopData) (h : WFData dat)
    (chr : String) (startpos : Int) (strand : String) (readstart readlen : Int) :
    WFData (add_start_codon dat chr startpos strand readstart readlen) := by
  constructor
  · intro d
    show d ∈ insertDist dat.start_dist (mkStartObs startpos strand readstart readlen).dist ↔ _
    rw [mem_insertDist]
    constructor
    · rintro (hd | rfl)
      · obtain ⟨x, hx, hxd⟩ := List.mem_map.mp ((h.1 d).mp hd)
        exact List.mem_map.mpr
          ⟨x, (mem_allObs_assocAppend _ _ _ _).mpr (Or.inl hx), hxd⟩
      · exact List.mem_map.mpr
          ⟨mkStartObs startpos strand readstart readlen,
            (mem_allObs_assocAppend _ _ _ _).mpr (Or.inr rfl), rfl⟩
    · intro hmem
      obtain ⟨x, hx, hxd⟩ := List.mem_map.mp hmem
      rcases (mem_allObs_assocAppend _ _ _ _).mp hx with hx' | rfl
      · exact Or.inl ((h.1 d).mpr (List.mem_map.mpr ⟨x, hx', hxd⟩))
      · exact Or.inr hxd.symm
  · exact h.2

/-- Accumulating a stop-codon observation preserves the reachable-state
invariant. -/
theorem WFData_add_stop_codon (dat : StartStopData) (h : WFData dat)
    (chr : String) (stoppos : Int) (strand : String) (readstop readlen : Int) :
    WFData (add_stop_codon dat chr stoppos strand readstop readlen) := by
  constructor
  · exact h.1
  · intro d
    show d ∈ insertDist dat.stop_dist (mkStopObs stoppos strand readstop readlen).dist ↔ _
    rw [mem_insertDist]
    constructor
    · rintro (hd | rfl)
      · obtain ⟨x, hx, hxd⟩ := List.mem_map.mp ((h.2 d).mp hd)
        exact List.mem_map.mpr
          ⟨x, (mem_allObs_assocAppend _ _ _ _).mpr (Or.inl hx), hxd⟩
      · exact List.mem_map.mpr
          ⟨mkStopObs stoppos strand readstop readlen,
            (mem_allObs_assocAppend _ _ _ _).mpr (Or.inr rfl), rfl⟩
    · intro hmem
      obtain ⟨x, hx, hxd⟩ := List.mem_map.mp hmem
      rcases (mem_allObs_assocAppend _ _ _ _).mp hx with hx' | rfl
      · exact Or.inl ((h.2 d).mpr (List.mem_map.mpr ⟨x, hx', hxd⟩))
      · exact Or.inr hxd.symm

/-- The fresh aggregator satisfies the reachable-state invariant. -/
theorem WFData_empty : WFData emptyData :=
  ⟨fun d => by simp [emptyData, allObs], fun d => by simp [emptyData, allObs]⟩

/-- A key occurs in the dictionary iff some entry carries it. -/
theorem any_keys (acc : List (Int × List Int)) (k : Int) :
    acc.any (fun p => p.1 = k) = true ↔ k ∈ acc.map (·.1) := by
  simp [List.any_eq_true, List.mem_map]

/-- The key set of the dictionary after one observation. -/
theorem keys_lenDictStep (acc : List (Int × List Int)) (o : Obs) :
    (lenDictStep acc o).map (·.1) =
      if acc.any (fun p => p.1 = o.readlen) = true then acc.map (·.1)
      else acc.map (·.1) ++ [o.readlen] := by
  unfold lenDictStep
  by_cases hpres : acc.any (fun p => p.1 = o.readlen) = true
  · rw [if_pos hpres, if_pos hpres, List.map_map]
    apply List.map_congr_left
    intro p _
    by_cases hp : p.1 = o.readlen <;> simp [hp]
  · rw [if_neg hpres, if_neg hpres]
    simp

/-- Key membership after one observation. -/
theorem mem_keys_lenDictStep (acc : List (Int × List Int)) (o : Obs) (x : Int) :
    x ∈ (lenDictStep acc o).map (·.1) ↔ x ∈ acc.map (·.1) ∨ x = o.readlen := by
  rw [keys_lenDictStep]
  by_cases hpres : acc.any (fun p => p.1 = o.readlen) = true
  · rw [if_pos hpres]
    constructor
    · exact Or.inl
    · rintro (h | h)
      · exact h
      · rw [h]; exact (any_keys acc o.readlen).mp hpres
  · rw [if_neg hpres]; simp

/-- One observation keeps the key set duplicate-free. -/
theorem nodup_keys_lenDictStep (acc : List (Int × List Int)) (o : Obs)
    (h : (acc.map (·.1)).Nodup) : ((lenDictStep acc o).map (·.1)).Nodup := by
  rw [keys_lenDictStep]
  by_cases hpres : acc.any (fun p => p.1 = o.readlen) = true
  · rw [if_pos hpres]; exact h
  · rw [if_neg hpres]
    have hnot : o.readlen ∉ acc.map (·.1) :=
      fun hmem => hpres ((any_keys acc o.readlen).mpr hmem)
    simp [List.nodup_append, h, hnot]

/-- Key membership after a list of observations. -/
theorem mem_keys_foldl_obs (rl : Int) (obs : List Obs) :
    ∀ acc, rl ∈ ((obs.foldl lenDictStep acc).map (·.1)) ↔
      rl ∈ acc.map (·.1) ∨ rl ∈ obs.map (·.readlen) := by
  induction obs with
  | nil => intro acc; simp
  | cons o os ih =>
      intro acc
      simp only [List.foldl_cons, List.map_cons, List.mem_cons]
      rw [ih, mem_keys_lenDictStep]
      tauto

/-- A list of observations keeps the key set duplicate-free. -/
theorem nodup_keys_foldl_obs (obs : List Obs) :
    ∀ acc, (acc.map (·.1)).Nodup → ((obs.foldl lenDictStep acc).map (·.1)).Nodup := by
  induction obs with
  | nil => intro acc h; exact h
  | cons o os ih => intro acc h; exact ih _ (nodup_keys_lenDictStep acc o h)

/-- The keys of the built length dictionary are exactly the read lengths of
the passing observations. -/
theorem mem_keys_buildLenDict (sites : List (String × List Obs)) (m : Int)
    (rl : Int) :
    rl ∈ (buildLenDict sites m).map (·.1) ↔
      rl ∈ (passObs sites m).map (·.readlen) := by
  suffices h : ∀ acc : List (Int × List Int), rl ∈ ((sites.foldl
      (fun acc p => if m ≤ (p.2.length : Int) then p.2.foldl lenDictStep acc else acc)
      acc).map (·.1)) ↔
      rl ∈ acc.map (·.1) ∨ rl ∈ (passObs sites m).map (·.readlen) by
    exact (h []).trans (by simp)
  induction sites with
  | nil => intro acc; simp [passObs, passingSites, allObs]
  | cons s ss ih =>
      intro acc
      simp only [List.foldl_cons, passObs_cons]
      by_cases hm : m ≤ (s.2.length : Int)
      · rw [if_pos hm, ih, mem_keys_foldl_obs]
        simp only [if_pos hm, List.map_append, List.mem_append]
        tauto
      · rw [if_neg hm, ih]
        simp only [if_neg hm, List.nil_append]

/-- The keys of the built length dictionary are duplicate-free. -/
theorem nodup_keys_buildLenDict (sites : List (String × List Obs)) (m : Int) :
    ((buildLenDict sites m).map (·.1)).Nodup := by
  suffices h : ∀ acc : List (Int × List Int), (acc.map (·.1)).Nodup → (((sites.foldl
      (fun acc p => if m ≤ (p.2.length : Int) then p.2.foldl lenDictStep acc else acc)
      acc)).map (·.1)).Nodup by
    exact h [] (by simp)
  induction sites with
  | nil => intro acc h; exact h
  | cons s ss ih =>
      intro acc h
      simp only [List.foldl_cons]
      by_cases hm : m ≤ (s.2.length : Int)
      · rw [if_pos hm]; exact ih _ (nodup_keys_foldl_obs s.2 acc h)
      · rw [if_neg hm]; exact ih _ h

/-- Two duplicate-free integer lists with the same members are
permutations. -/
theorem perm_of_nodup_of_mem_iff {l₁ l₂ : List Int} (n₁ : l₁.Nodup)
    (n₂ : l₂.Nodup) (hm : ∀ x, x ∈ l₁ ↔ x ∈ l₂) : l₁.Perm l₂ := by
  rw [List.perm_iff_count]
  intro a
  by_cases ha : a ∈ l₁
  · rw [List.count_eq_one_of_mem n₁ ha, List.count_eq_one_of_mem n₂ ((hm a).mp ha)]
  · rw [List.count_eq_zero_of_not_mem ha,
      List.count_eq_zero_of_not_mem (fun hb => ha ((hm a).mpr hb))]

/-- Two ascending duplicate-free integer lists with the same members are
equal. -/
theorem sorted_eq_of_nodup_mem_iff {l₁ l₂ : List Int}
    (s₁ : l₁.Sorted (· ≤ ·)) (s₂ : l₂.Sorted (· ≤ ·))
    (n₁ : l₁.Nodup) (n₂ : l₂.Nodup) (hm : ∀ x, x ∈ l₁ ↔ x ∈ l₂) : l₁ = l₂ :=
  List.eq_of_perm_of_sorted (perm_of_nodup_of_mem_iff n₁ n₂ hm) s₁ s₂

theorem sortInts_sorted (l : List Int) : (sortInts l).Sorted (· ≤ ·) :=
  List.sorted_insertionSort _ l

theorem sortInts_perm (l : List Int) : (sortInts l).Perm l :=
  List.perm_insertionSort _ l

theorem mem_sortInts {l : List Int} {x : Int} : x ∈ sortInts l ↔ x ∈ l :=
  (sortInts_perm l).mem_iff

theorem sortDedup_sorted (l : List Int) : (sortDedup l).Sorted (· ≤ ·) :=
  sortInts_sorted _

theorem sortDedup_nodup (l : List Int) : (sortDedup l).Nodup :=
  (sortInts_perm l.dedup).nodup_iff.mpr (List.nodup_dedup l)

theorem mem_sortDedup {l : List Int} {x : Int} : x ∈ sortDedup l ↔ x ∈ l := by
  rw [sortDedup, mem_sortInts, List.mem_dedup]

/-- Sorting a duplicate-free list agrees with sort-dedup of any list with the
same members. -/
theorem sortInts_eq_sortDedup {l₁ l₂ : List Int} (n₁ : l₁.Nodup)
    (hm : ∀ x, x ∈ l₁ ↔ x ∈ l₂) : sortInts l₁ = sortDedup l₂ :=
  sorted_eq_of_nodup_mem_iff (sortInts_sorted _) (sortDedup_sorted _)
    ((sortInts_perm l₁).nodup_iff.mpr n₁) (sortDedup_nodup _)
    (fun x => by rw [mem_sortInts, mem_sortDedup]; exact hm x)

theorem sortDedup_eq_of_mem_iff {l₁ l₂ : List Int}
    (hm : ∀ x, x ∈ l₁ ↔ x ∈ l₂) : sortDedup l₁ = sortDedup l₂ :=
  sorted_eq_of_nodup_mem_iff (sortDedup_sorted _) (sortDedup_sorted _)
    (sortDedup_nodup _) (sortDedup_nodup _)
    (fun x => by rw [mem_sortDedup, mem_sortDedup]; exact hm x)

theorem sortDedup_eq_of_perm {l₁ l₂ : List Int} (h : l₁.Perm l₂) :
    sortDedup l₁ = sortDedup l₂ :=
  sortDedup_eq_of_mem_iff (fun _ => h.mem_iff)

/-- The row labels of the reduced matrix are the sorted distinct read lengths
of the passing observations. -/
theorem reduceClass_rows (sites : List (String × List Obs)) (dists : List Int)
    (m : Int) :
    (reduceClass sites dists m).rows =
      sortDedup ((passObs sites m).map (·.readlen)) := by
  show sortInts ((buildLenDict sites m).map (·.1)) = _
  exact sortInts_eq_sortDedup (nodup_keys_buildLenDict sites m)
    (fun x => mem_keys_buildLenDict sites m x)

/-- The column labels of the reduced matrix are the sorted distinct members
of the distance set. -/
theorem reduceClass_cols (sites : List (String × List Obs)) (dists : List Int)
    (m : Int) : (reduceClass sites dists m).cols = sortDedup dists := rfl

/-- C5: for every aggregator state satisfying the reachable-state invariant
and every `min_site_count`, the reduced matrix's row set is exactly the
sorted distinct read lengths occurring in observations at sites with at
least `min_site_count` observations, and its column set is exactly the
sorted distinct signed distances ever recorded for that class across all
sites (including distances seen only at sites failing the filter). -/
theorem C5_reduce_row_col_sets (dat : StartStopData) (m : Int)
    (hwf : WFData dat) :
    (get_start_codon_dist_count dat m).rows =
      sortDedup ((passObs dat.startcodons m).map (·.readlen)) ∧
    (get_start_codon_dist_count dat m).cols =
      sortDedup ((allObs dat.startcodons).map (·.dist)) ∧
    (get_stop_codon_dist_count dat m).rows =
      sortDedup ((passObs dat.stopcodons m).map (·.readlen)) ∧
    (get_stop_codon_dist_count dat m).cols =
      sortDedup ((allObs dat.stopcodons).map (·.dist)) := by
  refine ⟨reduceClass_rows _ _ _, ?_, reduceClass_rows _ _ _, ?_⟩
  · show sortDedup dat.start_dist = _
    exact sortDedup_eq_of_mem_iff hwf.1
  · show sortDedup dat.stop_dist = _
    exact sortDedup_eq_of_mem_iff hwf.2

/-- Witness for C5: a state with a two-observation site and a one-observation
site, reduced at minimum site count 2. -/
theorem C5_reduce_row_col_sets_witness :
    WFData datC5 ∧
    (get_start_codon_dist_count datC5 2).rows = [25, 30] ∧
    (get_start_codon_dist_count datC5 2).cols = [-6, -4, -3] := by
  have hwf : WFData datC5 := by
    constructor
    · intro d
      rw [(by decide : datC5.start_dist = [-4, -3, -6]),
        (by decide : (allObs datC5.startcodons).map (·.dist) = [-4, -3, -6])]
    · intro d
      rw [(by decide : datC5.stop_dist = ([] : List Int)),
        (by decide : (allObs datC5.stopcodons).map (·.dist) = ([] : List Int))]
  obtain ⟨h1, h2, _, _⟩ := C5_reduce_row_col_sets datC5 2 hwf
  refine ⟨hwf, ?_, ?_⟩
  · rw [h1]; decide
  · rw [h2]; decide

/-- Permutations of the site dictionary and the distance set produce the same
reduced matrix. -/
theorem passObs_perm {sites sites' : List (String × List Obs)} (m : Int)
    (h : sites.Perm sites') : (passObs sites m).Perm (passObs sites' m) :=
  ((h.filter _).map _).flatten

/-- The reduction is a function of the dictionary contents only: enumerating
the sites or the distance set in any other order yields the identical
matrix. -/
theorem reduceClass_perm {sites sites' : List (String × List Obs)}
    {dists dists' : List Int} (m : Int) (hp : sites.Perm sites')
    (hd : dists.Perm dists') :
    reduceClass sites dists m = reduceClass sites' dists' m := by
  have hcols : sortDedup dists = sortDedup dists' := sortDedup_eq_of_perm hd
  have hrows : sortInts ((buildLenDict sites m).map (·.1)) =
      sortInts ((buildLenDict sites' m).map (·.1)) := by
    apply sorted_eq_of_nodup_mem_iff (sortInts_sorted _) (sortInts_sorted _)
      ((sortInts_perm _).nodup_iff.mpr (nodup_keys_buildLenDict sites m))
      ((sortInts_perm _).nodup_iff.mpr (nodup_keys_buildLenDict sites' m))
    intro x
    rw [mem_sortInts, mem_sortInts, mem_keys_buildLenDict, mem_keys_buildLenDict]
    exact ((passObs_perm m hp).map _).mem_iff
  have hcount : ∀ rl d, (lookupRL (buildLenDict sites m) rl).count d =
      (lookupRL (buildLenDict sites' m) rl).count d := by
    intro rl d
    rw [lookupRL_buildLenDict, lookupRL_buildLenDict]
    exact (((passObs_perm m hp).filter _).map _).count_eq d
  simp only [reduceClass]
  rw [hcols, hrows]
  congr 1
  apply List.map_congr_left
  intro rl _
  apply List.map_congr_left
  intro d _
  exact hcount rl d

/-- C9: for every aggregator state and every `min_site_count`, re-running the
reduction on the unchanged state yields the identical matrix — even when the
dictionaries and distance sets are re-enumerated in a different order, as a
hash-based dict/set may do between two calls. -/
theorem C9_reduce_deterministic (dat dat' : StartStopData) (m : Int)
    (h1 : dat.startcodons.Perm dat'.startcodons)
    (h2 : dat.stopcodons.Perm dat'.stopcodons)
    (h3 : dat.start_dist.Perm dat'.start_dist)
    (h4 : dat.stop_dist.Perm dat'.stop_dist) :
    get_start_codon_dist_count dat m = get_start_codon_dist_count dat' m ∧
    get_stop_codon_dist_count dat m = get_stop_codon_dist_count dat' m :=
  ⟨reduceClass_perm m h1 h3, reduceClass_perm m h2 h4⟩

/-- Witness for C9: the same aggregate content enumerated in two different
orders reduces to the identical matrix. -/
theorem C9_reduce_deterministic_witness :
    datC5.startcodons.Perm datC9.startcodons ∧
    datC5.stopcodons.Perm datC9.stopcodons ∧
    datC5.start_dist.Perm datC9.start_dist ∧
    datC5.stop_dist.Perm datC9.stop_dist ∧
    get_start_codon_dist_count datC5 2 = get_start_codon_dist_count datC9 2 ∧
    get_stop_codon_dist_count datC5 2 = get_stop_codon_dist_count datC9 2 := by
  have p1 : datC5.startcodons.Perm datC9.startcodons := by decide
  have p2 : datC5.stopcodons.Perm datC9.stopcodons := by decide
  have p3 : datC5.start_dist.Perm datC9.start_dist := by decide
  have p4 : datC5.stop_dist.Perm datC9.stop_dist := by decide
  obtain ⟨hs, ht⟩ := C9_reduce_deterministic datC5 datC9 2 p1 p2 p3 p4
  exact ⟨p1, p2, p3, p4, hs, ht⟩

/-- C10: the reduction operations leave the aggregator's state unchanged —
the method bodies of `get_start_codon_dist_count` and
`get_stop_codon_dist_count` never assign an attribute of `self`, so for every
state and every `mincount` the object state after the call equals the state
before it. -/
theorem C10_reduce_preserves_state (dat : StartStopData) (mincount : Int) :
    (get_start_codon_dist_count_call dat mincount).2 = dat ∧
    (get_stop_codon_dist_count_call dat mincount).2 = dat :=
  ⟨rfl, rfl⟩

/-- C6 counterexample: invoking the reduction without an explicit
`min_site_count` does NOT behave as if it were 0.  On a state with one
start-codon site holding a single observation the default call returns a
matrix with no rows (the site is excluded), while the call with 0 keeps the
site's read length 30 as a row. -/
theorem C6_counterexample :
    get_start_codon_dist_count_default datC6 ≠ get_start_codon_dist_count datC6 0 ∧
    (get_start_codon_dist_count_default datC6).rows = [] ∧
    (get_start_codon_dist_count datC6 0).rows = [30] := by
  decide

/-- C6 amended: invoked without an explicit `min_site_count` argument, the
reduction behaves as if `min_site_count` were 20 (the Python default
`mincount=20`, source lines 103 and 130): sites with fewer than 20
observations are excluded. -/
theorem C6_default_mincount_is_twenty (dat : StartStopData) :
    get_start_codon_dist_count_default dat = get_start_codon_dist_count dat 20 ∧
    get_stop_codon_dist_count_default dat = get_stop_codon_dist_count dat 20 :=
  ⟨rfl, rfl⟩

/-- C1 counterexample: a `+`-strand start-codon record with codon begin 110
and read start 100 is accepted; the filter's signed distance (the final value
of the loop variable `fdist`, recorded in `lastFdist`) is
`110 - 100 = 10`, but the aggregator stores the distance `-10` in the
observation row — the stored distance does not equal the filter's. -/
theorem C1_counterexample :
    runSteps defaultCfg initState [lineC] =
      .ok ⟨["r1"], ⟨[("chr1|110|+", [⟨110, 100, -10, 30⟩])], [], [-10], []⟩, some 10⟩ ∧
    (110 : Int) - 100 = 10 ∧ (-10 : Int) ≠ 10 := by
  decide

/-- C1 amended: for the four (codon type, strand) accept branches, with the
argument patterns the filter passes to the aggregator (start `+`: positions
13/6; stop `+`: 14/7; start `-`: 14/7; stop `-`: 13/6) and the filter
distance of the corresponding branch (`fdat[13]-fdat[6]` or
`fdat[14]-fdat[7]`): on the `-` strand the stored observation distance equals
the filter's signed distance, while on the `+` strand it equals its
negation. -/
theorem C1_stored_distance_vs_filter (p13 p6 p14 p7 len : Int) :
    (mkStartObs p13 "+" p6 len).dist =
      -(spec41_signed_distance true "+" p13 p6 p14 p7) ∧
    (mkStopObs p14 "+" p7 len).dist =
      -(spec41_signed_distance false "+" p13 p6 p14 p7) ∧
    (mkStartObs p14 "-" p7 len).dist =
      spec41_signed_distance true "-" p13 p6 p14 p7 ∧
    (mkStopObs p13 "-" p6 len).dist =
      spec41_signed_distance false "-" p13 p6 p14 p7 := by
  refine ⟨?_, ?_, ?_, ?_⟩ <;>
    simp [mkStartObs, mkStopObs, spec41_signed_distance]

/-- C3 counterexample: for the Scenario C record the resulting start-codon
matrix has one row (read length 30) but its only column is `-10`, not 10:
there is no cell at column 10. -/
theorem C3_counterexample :
    reduceRun defaultCfg [lineC] 0 = .ok (⟨[30], [-10], [[1]]⟩, ⟨[], [], []⟩) ∧
    (10 : Int) ∉ ([-10] : List Int) := by
  decide

/-- C3 amended: for the Scenario C record the filter computes distance 10
(`lastFdist`), the record is accepted, and the resulting start-codon matrix
(at minimum site count 0) has exactly one row, read length 30, whose single
column is `-10` (the stored distance) with cell value 1. -/
theorem C3_scenario_c_matrix :
    runSteps defaultCfg initState [lineC] =
      .ok ⟨["r1"], ⟨[("chr1|110|+", [⟨110, 100, -10, 30⟩])], [], [-10], []⟩, some 10⟩ ∧
    reduceRun defaultCfg [lineC] 0 = .ok (⟨[30], [-10], [[1]]⟩, ⟨[], [], []⟩) := by
  decide

/-- C8 counterexample: on a pattern-matching line whose block-sizes field is
`30,` (a comma-separated integer list with a trailing comma) the read-length
computation does NOT succeed: `int('')` fails and the parse run aborts with
the propagated error. -/
theorem C8_counterexample :
    parseBlockSizes "30," = none ∧
    parse_start_stop_codon defaultCfg [lineC8] = .error .valueError := by
  decide

/-- C8 amended: a block-sizes field ending in a comma always fails the
read-length computation (the empty component after the trailing comma is not
an integer) and aborts the run as a malformed-field error; without the
trailing comma the computation yields the sum of the listed block sizes. -/
theorem C8_trailing_comma_is_error :
    (∀ cs : List Char, parseBlockSizes (List.asString (cs ++ [','])) = none) ∧
    parseBlockSizes "10,20" = some 30 ∧
    parse_start_stop_codon defaultCfg [lineC8] = .error .valueError := by
  refine ⟨fun cs => ?_, by decide, by decide⟩
  show sumBlockSizes (splitOnChar ',' (List.asString (cs ++ [','])).data) = none
  have hdata : (List.asString (cs ++ [','])).data = cs ++ [','] := rfl
  rw [hdata, splitOnChar_append_sep, sumBlockSizes_append_nil]

end StartStop
